import Mathlib

/-!
Verification of the alarm-scheduling core of `nag_me` (src/src/nagger.rs).

The core is a queue of `Alarm` values kept sorted ascending by due time
(the `sorted_vec::SortedVec` container), a background runner loop that
repeatedly pops an alarm, sleeps until it is due, and sends it on a
channel, plus `add_alarm` / `del_alarm` operations that mutate the queue
under a lock.

Shallow embedding conventions:
- a `chrono::DateTime<Local>` is an integer timestamp (`Int`);
- the shared `SortedVec<Alarm>` is a `List Alarm` in ascending order;
- a panic (an `unwrap` of an `Err`) is `none`;
- the delivery channel is a boolean `channelOpen`: `tx.send` succeeds
  exactly when the receiver has not been dropped;
- one iteration of the runner loop is a pure step function;
  operations other tasks perform on the shared queue while the runner
  is suspended (the only moments the lock is free during an iteration)
  are passed explicitly as a list of operations `muts`.
-/

namespace NagMe

/-- Alarm, from nagger.rs lines 14-18: a name and an absolute due time.
Rust derives structural `PartialEq`/`Eq` (name AND time), which
`DecidableEq` mirrors. -/
structure Alarm where
  name : String
  time : Int
  deriving DecidableEq, Repr

/-- The manual `Ord` impl, nagger.rs lines 25-29: compares `time` only. -/
def Alarm.cmp (a b : Alarm) : Ordering :=
  compare a.time b.time

/-- The derived `PartialEq`, nagger.rs line 14: compares both fields. -/
def Alarm.beq (a b : Alarm) : Bool :=
  a.name == b.name && a.time == b.time

/-- Alarm.activate, nagger.rs lines 31-37.
The Rust code computes `sleep_time = self.time - Local::now()`
(a signed `chrono::Duration`), converts it with `.to_std().unwrap()` -
`to_std` returns `Err` for a negative duration, so the unwrap PANICS
when the due time is in the past (modelled as `none`) - then sleeps and
returns `self` unchanged. On success we return the alarm together with
the instant the sleep completes (`now + sleep_time`). -/
def Alarm.activate (a : Alarm) (now : Int) : Option (Alarm × Int) :=
  let sleep_time := a.time - now
  if sleep_time < 0 then none
  else some (a, now + sleep_time)

/-- The ordering relation used by the sorted container: the `Ord` impl
compares due times only. -/
def alarmLE (a b : Alarm) : Prop := a.time ≤ b.time

instance : DecidableRel alarmLE :=
  fun a b => inferInstanceAs (Decidable (a.time ≤ b.time))

instance : IsTotal Alarm alarmLE :=
  ⟨fun a b => Int.le_total a.time b.time⟩

instance : IsTrans Alarm alarmLE :=
  ⟨fun _ _ _ h₁ h₂ => le_trans h₁ h₂⟩

instance : IsRefl Alarm alarmLE := ⟨fun a => le_refl a.time⟩

/-- SortedVec::insert (used by Nagger::add_alarm, nagger.rs line 57):
binary-searches with the alarm `Ord` and inserts at the found position,
keeping the vector ascending. Ordered insertion is its sequential
specification. -/
def insertAlarm (a : Alarm) (q : List Alarm) : List Alarm :=
  List.orderedInsert alarmLE a q

/-- SortedVec::pop (used by Nagger::runner, nagger.rs line 70):
delegates to Vec::pop, which removes and returns the LAST element of
the ascending vector, i.e. the alarm with the GREATEST due time. -/
def popAlarm (q : List Alarm) : Option (Alarm × List Alarm) :=
  match q.getLast? with
  | none => none
  | some a => some (a, q.dropLast)

/-- Nagger::del_alarm, nagger.rs lines 61-66: position of the first
alarm whose name matches (iter().position), then remove_index there,
returning the removed alarm; None when no name matches. -/
def delAlarm (name : String) (q : List Alarm) : Option (Alarm × List Alarm) :=
  match q.findIdx? (fun a => a.name == name) with
  | none => none
  | some i =>
    match q[i]? with
    | none => none
    | some a => some (a, q.eraseIdx i)

/-- A mutation of the shared queue by the public API or the runner. -/
inductive Op where
  | add (a : Alarm)
  | del (name : String)
  | pop
  deriving Repr

/-- Effect of one completed operation on the queue contents. -/
def applyOp (q : List Alarm) : Op → List Alarm
  | .add a => insertAlarm a q
  | .del n =>
    match delAlarm n q with
    | none => q
    | some (_, q') => q'
  | .pop =>
    match popAlarm q with
    | none => q
    | some (_, q') => q'

/-- Queue contents after a sequence of operations from the empty queue. -/
def runOps (ops : List Op) : List Alarm :=
  ops.foldl applyOp []

/-- Observable outcome of one iteration of Nagger::runner
(nagger.rs lines 68-80). -/
inductive StepOutcome where
  | sleptIdle (secs : Nat)
  | delivered (a : Alarm) (fireAt : Int)
  | exited (a : Alarm) (fireAt : Int)
  | panicked (a : Alarm)
  deriving DecidableEq, Repr

/-- One iteration of the runner loop, nagger.rs lines 69-78:
lock and pop; on None, sleep 1 second and loop; on Some, activate
(sleep until due - may panic, see Alarm.activate) and send; a failed
send (receiver dropped, `channelOpen = false`) breaks the loop with the
error absorbed; a successful send loops. `muts` are the queue
operations other tasks complete while the runner is suspended (the
lock is released after the pop). -/
def runnerIter (q : List Alarm) (now : Int) (channelOpen : Bool)
    (muts : List Op) : StepOutcome × List Alarm :=
  match popAlarm q with
  | none => (.sleptIdle 1, muts.foldl applyOp q)
  | some (a, q₁) =>
    let q₂ := muts.foldl applyOp q₁
    match a.activate now with
    | none => (.panicked a, q₂)
    | some (a', t) =>
      if channelOpen then (.delivered a' t, q₂) else (.exited a' t, q₂)

/-- Does the outcome take the break path out of the loop? -/
def StepOutcome.isExit : StepOutcome → Bool
  | .exited _ _ => true
  | _ => false

/- ### Helper lemmas -/

theorem popAlarm_eq_some {q q₁ : List Alarm} {a : Alarm} :
    popAlarm q = some (a, q₁) ↔ q = q₁ ++ [a] := by
  constructor
  · intro h
    unfold popAlarm at h
    cases hg : q.getLast? with
    | none => rw [hg] at h; exact absurd h (by simp)
    | some b =>
      rw [hg] at h
      obtain ⟨ys, rfl⟩ := List.getLast?_eq_some_iff.mp hg
      simp only [Option.some.injEq, Prod.mk.injEq] at h
      obtain ⟨rfl, rfl⟩ := h
      rw [List.dropLast_concat]
  · rintro rfl
    unfold popAlarm
    rw [List.getLast?_concat, List.dropLast_concat]

theorem delAlarm_cons (name : String) (a : Alarm) (q : List Alarm) :
    delAlarm name (a :: q) =
      if a.name = name then some (a, q)
      else (delAlarm name q).map (fun p => (p.1, a :: p.2)) := by
  by_cases h : a.name = name
  · simp [delAlarm, h]
  · simp only [delAlarm, List.findIdx?_cons, beq_iff_eq, h, if_false, List.findIdx?_succ]
    cases hf : List.findIdx? (fun x => x.name == name) q with
    | none => rfl
    | some i =>
      cases hg : q[i]? with
      | none => simp [hg]
      | some b => simp [hg]

theorem delAlarm_first_match (name : String) (p s : List Alarm) (a : Alarm)
    (hp : ∀ x ∈ p, x.name ≠ name) (ha : a.name = name) :
    delAlarm name (p ++ a :: s) = some (a, p ++ s) := by
  induction p with
  | nil =>
    rw [List.nil_append, List.nil_append, delAlarm_cons, if_pos ha]
  | cons b p ih =>
    have hb : b.name ≠ name := hp b (by simp)
    rw [List.cons_append, delAlarm_cons, if_neg hb,
      ih (fun x hx => hp x (List.mem_cons_of_mem b hx))]
    rfl

theorem delAlarm_none_of_no_match (name : String) (q : List Alarm)
    (h : ∀ x ∈ q, x.name ≠ name) : delAlarm name q = none := by
  induction q with
  | nil => rfl
  | cons b q ih =>
    have hb : b.name ≠ name := h b (by simp)
    rw [delAlarm_cons, if_neg hb, ih (fun x hx => h x (List.mem_cons_of_mem b hx))]
    rfl

theorem delAlarm_mem {name : String} {q q₂ : List Alarm} {b : Alarm}
    (h : delAlarm name q = some (b, q₂)) : b ∈ q := by
  induction q generalizing q₂ with
  | nil => exact absurd h (by simp [delAlarm])
  | cons c q ih =>
    rw [delAlarm_cons] at h
    by_cases hc : c.name = name
    · rw [if_pos hc] at h
      cases h
      exact List.mem_cons_self ..
    · rw [if_neg hc] at h
      cases hd : delAlarm name q with
      | none => rw [hd] at h; exact absurd h (by simp)
      | some p =>
        obtain ⟨b', q'⟩ := p
        rw [hd] at h
        simp only [Option.map_some', Option.some.injEq, Prod.mk.injEq] at h
        obtain ⟨rfl, rfl⟩ := h
        exact List.mem_cons_of_mem c (ih hd)

theorem delAlarm_removes_one {name : String} {q q₂ : List Alarm} {b : Alarm}
    (h : delAlarm name q = some (b, q₂)) : q₂.Sublist q := by
  induction q generalizing q₂ with
  | nil => exact absurd h (by simp [delAlarm])
  | cons c q ih =>
    rw [delAlarm_cons] at h
    by_cases hc : c.name = name
    · rw [if_pos hc] at h
      cases h
      exact List.sublist_cons_self ..
    · rw [if_neg hc] at h
      cases hd : delAlarm name q with
      | none => rw [hd] at h; exact absurd h (by simp)
      | some p =>
        obtain ⟨b', q'⟩ := p
        rw [hd] at h
        simp only [Option.map_some', Option.some.injEq, Prod.mk.injEq] at h
        obtain ⟨rfl, rfl⟩ := h
        exact List.Sublist.cons₂ c (ih hd)

theorem applyOp_sorted {q : List Alarm} (op : Op)
    (h : List.Sorted alarmLE q) : List.Sorted alarmLE (applyOp q op) := by
  cases op with
  | add a => exact List.Sorted.orderedInsert a q h
  | del n =>
    show List.Sorted alarmLE
      (match delAlarm n q with | none => q | some (_, q') => q')
    cases hd : delAlarm n q with
    | none => exact h
    | some p =>
      obtain ⟨b, q₂⟩ := p
      exact List.Pairwise.sublist (delAlarm_removes_one hd) h
  | pop =>
    show List.Sorted alarmLE
      (match popAlarm q with | none => q | some (_, q') => q')
    cases hp : popAlarm q with
    | none => exact h
    | some p =>
      obtain ⟨a, q₁⟩ := p
      have hq : q = q₁ ++ [a] := popAlarm_eq_some.mp hp
      subst hq
      exact List.Pairwise.sublist (List.sublist_append_left q₁ [a]) h

theorem foldl_applyOp_sorted (ops : List Op) {q : List Alarm}
    (h : List.Sorted alarmLE q) : List.Sorted alarmLE (ops.foldl applyOp q) := by
  induction ops generalizing q with
  | nil => exact h
  | cons op ops ih => exact ih (applyOp_sorted op h)

theorem activate_some_elim {a r : Alarm} {now t : Int}
    (h : a.activate now = some (r, t)) : r = a ∧ t = a.time := by
  simp only [Alarm.activate] at h
  split at h
  · exact absurd h (by simp)
  · simp only [Option.some.injEq, Prod.mk.injEq] at h
    obtain ⟨h1, h2⟩ := h
    exact ⟨h1.symm, by omega⟩

theorem activate_of_le {a : Alarm} {now : Int} (h : now ≤ a.time) :
    a.activate now = some (a, a.time) := by
  show (if a.time - now < 0 then none else some (a, now + (a.time - now)))
    = some (a, a.time)
  rw [if_neg (by omega)]
  have hsum : now + (a.time - now) = a.time := by omega
  rw [hsum]

/- ### Claim theorems -/

/-- C1: the spec requires pop to remove and return the alarm with the
SMALLEST due time, and that from alarms a at T+5, b at T+1, c at T+3
three successive pops yield b, c, a. The code's SortedVec::pop
delegates to Vec::pop, which removes the LAST element of the ascending
vector, i.e. the alarm with the GREATEST due time: on exactly that
queue the three pops yield a, then c, then b. -/
theorem c1_pop_returns_greatest_due_time :
    runOps [.add ⟨"a", 5⟩, .add ⟨"b", 1⟩, .add ⟨"c", 3⟩]
      = [⟨"b", 1⟩, ⟨"c", 3⟩, ⟨"a", 5⟩]
    ∧ popAlarm [⟨"b", 1⟩, ⟨"c", 3⟩, ⟨"a", 5⟩]
      = some (⟨"a", 5⟩, [⟨"b", 1⟩, ⟨"c", 3⟩])
    ∧ popAlarm [⟨"b", 1⟩, ⟨"c", 3⟩] = some (⟨"c", 3⟩, [⟨"b", 1⟩])
    ∧ popAlarm [⟨"b", 1⟩] = some (⟨"b", 1⟩, ([] : List Alarm)) := by
  decide

/-- C2: the spec requires a past due time to be treated as a
zero-or-negative duration with the alarm proceeding immediately.
The code computes the signed duration and calls to_std().unwrap();
to_std fails for a negative duration, so Alarm::activate panics
(modelled: returns none) for every alarm already in the past, while a
zero duration does proceed immediately. -/
theorem c2_activate_panics_on_past_due :
    Alarm.activate ⟨"x", -1⟩ 0 = none
    ∧ Alarm.activate ⟨"y", 0⟩ 0 = some (⟨"y", 0⟩, 0)
    ∧ (runnerIter [⟨"x", -1⟩] 0 true []).1 = .panicked ⟨"x", -1⟩ := by
  decide

/-- C3 counterexample: the claim says two alarms ARE EQUAL iff their due
times are equal, regardless of names. Alarms (name a, time 0) and
(name b, time 0) have equal due times and compare Ordering.eq under the
manual Ord, yet the derived PartialEq (which compares names too) says
they are NOT equal. -/
theorem c3_counterexample :
    Alarm.cmp ⟨"a", 0⟩ ⟨"b", 0⟩ = Ordering.eq
    ∧ Alarm.beq ⟨"a", 0⟩ ⟨"b", 0⟩ = false
    ∧ decide ((⟨"a", 0⟩ : Alarm) = ⟨"b", 0⟩) = false := by
  decide

/-- C3 amended: ordering (cmp) is by due time alone - cmp returns
Ordering.eq iff the due times are equal - but the derived equality
(PartialEq/Eq) compares both fields: two alarms are equal iff their
names AND due times are equal. -/
theorem c3_cmp_by_time_eq_structural :
    ∀ a b : Alarm,
      (Alarm.cmp a b = Ordering.eq ↔ a.time = b.time)
      ∧ (Alarm.beq a b = true ↔ a.name = b.name ∧ a.time = b.time)
      ∧ (a = b ↔ a.name = b.name ∧ a.time = b.time) := by
  intro a b
  refine ⟨compare_eq_iff_eq, ?_, ?_⟩
  · simp [Alarm.beq]
  · constructor
    · rintro rfl
      exact ⟨rfl, rfl⟩
    · rintro ⟨h1, h2⟩
      cases a
      cases b
      simp_all

/-- C4: del_alarm removes and returns exactly the first alarm in
ascending-due-time order whose name matches, removing only that one;
in particular with alarms x at T+10 and x at T+20 pending,
del_alarm of x removes the T+10 one and leaves the T+20 one pending. -/
theorem c4_del_removes_first_match :
    (∀ (name : String) (p s : List Alarm) (a : Alarm),
        (∀ x ∈ p, x.name ≠ name) → a.name = name →
        delAlarm name (p ++ a :: s) = some (a, p ++ s))
    ∧ delAlarm "x" (runOps [.add ⟨"x", 10⟩, .add ⟨"x", 20⟩])
      = some (⟨"x", 10⟩, [⟨"x", 20⟩]) :=
  ⟨delAlarm_first_match, by decide⟩

/-- C4 witness: at the concrete queue y@1, x@10, x@20 the general part
of C4 returns x@10 and keeps x@20. -/
theorem c4_witness :
    delAlarm "x" ([⟨"y", 1⟩] ++ (⟨"x", 10⟩ : Alarm) :: [⟨"x", 20⟩])
      = some (⟨"x", 10⟩, [⟨"y", 1⟩] ++ [⟨"x", 20⟩]) :=
  c4_del_removes_first_match.1 "x" [⟨"y", 1⟩] [⟨"x", 20⟩] ⟨"x", 10⟩
    (by decide) rfl

/-- C5: after every sequence of add_alarm / del_alarm / pop operations
from the empty queue, the queue contents read in order are
non-decreasing by due time. -/
theorem c5_sort_invariant :
    ∀ ops : List Op, List.Sorted alarmLE (runOps ops) :=
  fun ops => foldl_applyOp_sorted ops List.sorted_nil

/-- C6: del_alarm with a name matching no pending alarm returns None
(not an error) and leaves the queue contents unchanged. -/
theorem c6_del_absent_name :
    ∀ (q : List Alarm) (name : String), (∀ x ∈ q, x.name ≠ name) →
      delAlarm name q = none ∧ applyOp q (.del name) = q := by
  intro q name h
  have hd := delAlarm_none_of_no_match name q h
  refine ⟨hd, ?_⟩
  show (match delAlarm name q with
        | none => q
        | some (_, q') => q') = q
  rw [hd]

/-- C6 witness: deleting the absent name z from the one-alarm queue a@1
returns none and leaves the queue unchanged. -/
theorem c6_witness :
    delAlarm "z" [(⟨"a", 1⟩ : Alarm)] = none
    ∧ applyOp [(⟨"a", 1⟩ : Alarm)] (.del "z") = [(⟨"a", 1⟩ : Alarm)] :=
  c6_del_absent_name [⟨"a", 1⟩] "z" (by decide)

/-- C7: the spec says the loop terminates only via a failed send
(consumer dropped) and in every other case returns to idle-poll.
In the code the break path is indeed reached only on a failed send, and
the send error is absorbed; but on a queue holding a past-due alarm the
iteration PANICS (the activate unwrap), terminating the loop abnormally
with the channel still open - an exit the claim says cannot happen. -/
theorem c7_loop_exit_paths :
    runnerIter [⟨"x", -1⟩] 0 true [] = (.panicked ⟨"x", -1⟩, [])
    ∧ (∀ (q : List Alarm) (now : Int) (muts : List Op),
        ((runnerIter q now true muts).1).isExit = false)
    ∧ runnerIter [⟨"y", 5⟩] 0 false [] = (.exited ⟨"y", 5⟩ 5, []) := by
  refine ⟨by decide, ?_, by decide⟩
  intro q now muts
  cases hpop : popAlarm q with
  | none => simp [runnerIter, hpop, StepOutcome.isExit]
  | some p =>
    obtain ⟨a, q₁⟩ := p
    cases hact : a.activate now with
    | none => simp [runnerIter, hpop, hact, StepOutcome.isExit]
    | some r =>
      obtain ⟨a', t⟩ := r
      simp [runnerIter, hpop, hact, StepOutcome.isExit]

/-- C8: once an alarm is popped into the waiting state, queue operations
no longer affect it: the popped occurrence is out of the queue (its
multiplicity drops by one, and del_alarm only ever returns an alarm
still in the queue), and whatever operations complete during the wait,
the iteration delivers the popped alarm at its own due time, with the
concurrently mutated queue only seen by the next iteration. -/
theorem c8_in_flight_alarm_unaffected :
    ∀ (q : List Alarm) (now : Int) (muts : List Op) (a : Alarm)
      (q₁ : List Alarm),
      popAlarm q = some (a, q₁) →
      List.count a q₁ + 1 = List.count a q
      ∧ (∀ (n : String) (b : Alarm) (q₂ : List Alarm),
          delAlarm n q₁ = some (b, q₂) → b ∈ q₁)
      ∧ (now ≤ a.time →
          runnerIter q now true muts
            = (.delivered a a.time, muts.foldl applyOp q₁)) := by
  intro q now muts a q₁ hpop
  have hq : q = q₁ ++ [a] := popAlarm_eq_some.mp hpop
  refine ⟨?_, ?_, ?_⟩
  · rw [hq, List.count_append]
    simp
  · intro n b q₂ hdel
    exact delAlarm_mem hdel
  · intro hle
    simp [runnerIter, hpop, activate_of_le hle]

/-- C8 witness: popping queue b@1, a@5 leaves b@1; with an earlier-due
alarm e@2 inserted during the wait, the iteration still delivers a@5 at
time 5 and the next iteration sees queue b@1, e@2. -/
theorem c8_witness :
    List.count (⟨"a", 5⟩ : Alarm) [(⟨"b", 1⟩ : Alarm)] + 1
      = List.count (⟨"a", 5⟩ : Alarm) [(⟨"b", 1⟩ : Alarm), ⟨"a", 5⟩]
    ∧ runnerIter [(⟨"b", 1⟩ : Alarm), ⟨"a", 5⟩] 0 true [.add ⟨"e", 2⟩]
      = (.delivered ⟨"a", 5⟩ 5, [⟨"b", 1⟩, ⟨"e", 2⟩]) := by
  have h := c8_in_flight_alarm_unaffected [⟨"b", 1⟩, ⟨"a", 5⟩] 0
    [.add ⟨"e", 2⟩] ⟨"a", 5⟩ [⟨"b", 1⟩] (by decide)
  refine ⟨h.1, ?_⟩
  rw [h.2.2 (by decide)]
  decide

/-- C9: when the queue is empty the iteration delivers nothing, does not
exit, sleeps for the fixed 1-second polling interval, and re-enters the
loop with the queue unchanged. -/
theorem c9_idle_poll :
    (∀ (now : Int) (channelOpen : Bool) (muts : List Op),
        (runnerIter [] now channelOpen muts).1 = .sleptIdle 1)
    ∧ (∀ (now : Int) (channelOpen : Bool),
        runnerIter [] now channelOpen [] = (.sleptIdle 1, [])) :=
  ⟨fun _ _ _ => rfl, fun _ _ => rfl⟩

/-- C10: whenever Alarm::activate returns, it returns the very alarm it
was called on, name and due time unchanged, and the alarm the loop
sends on the channel is exactly the popped alarm, field for field. -/
theorem c10_activate_returns_same :
    (∀ (a : Alarm) (now : Int) (r : Alarm) (t : Int),
        a.activate now = some (r, t) →
        r = a ∧ r.name = a.name ∧ r.time = a.time)
    ∧ (∀ (q : List Alarm) (now : Int) (a r : Alarm) (q₁ : List Alarm)
        (t : Int),
        popAlarm q = some (a, q₁) → a.activate now = some (r, t) →
        (runnerIter q now true []).1 = .delivered r t ∧ r = a) := by
  refine ⟨?_, ?_⟩
  · intro a now r t h
    obtain ⟨rfl, _⟩ := activate_some_elim h
    exact ⟨rfl, rfl, rfl⟩
  · intro q now a r q₁ t hpop hact
    obtain ⟨rfl, rfl⟩ := activate_some_elim hact
    refine ⟨?_, rfl⟩
    simp [runnerIter, hpop, hact]

/-- C10 witness: activating w@4 at time 1 returns w@4 itself, and the
iteration on the one-alarm queue w@4 delivers exactly w@4 at time 4. -/
theorem c10_witness :
    (runnerIter [(⟨"w", 4⟩ : Alarm)] 1 true []).1
      = .delivered ⟨"w", 4⟩ 4 :=
  (c10_activate_returns_same.2 [⟨"w", 4⟩] 1 ⟨"w", 4⟩ ⟨"w", 4⟩ [] 4
    (by decide) (by decide)).1

end NagMe
